import Mathlib

/-!
Verification development for the recsys repository: shallow embeddings of
the factorization-machine interaction block, the first-order linear block,
the vanilla matrix-factorization forward pass, the NCF and Two-Tower
parameter layout, the embedding row-gather, and the broken MF / DeepFM
constructors.  Scalars are modelled as exact rationals; a batch tensor of
shape (batch, d, k) is modelled as a list of samples, each sample a list of
feature indices, each embedding a function `Fin k → ℚ`.
-/

/-- A dense vector of dimension `k` (one row of an embedding table). -/
def Vec (k : ℕ) : Type := Fin k → ℚ

/-- The zero vector. -/
def zeroVec (k : ℕ) : Vec k := fun _ => 0

/-- Column `l` of the column-sum `xs.sum(dim=1)` of the stacked embeddings of
one sample: the sum across the `d` feature rows, per embedding coordinate. -/
def colSum {k : ℕ} (xs : List (Vec k)) (l : Fin k) : ℚ :=
  (xs.map (fun v => v l)).sum

/-- Elementwise square `v ** 2` of one embedding row. -/
def vecSq {k : ℕ} (v : Vec k) : Vec k := fun l => v l ^ 2

/-- The FM second-order interaction block, per sample, translated from
`FM.factorization_machine` (part_001 and part_002):
`sq_sum = x_embed.sum(dim=1)**2`, `sum_sq = (x_embed**2).sum(dim=1)`,
result `0.5 * (sq_sum - sum_sq).sum(dim=1)`. -/
def factorization_machine {k : ℕ} (x_embed : List (Vec k)) : ℚ :=
  ((1 : ℚ) / 2) * ∑ l, ((colSum x_embed l) ^ 2 - colSum (x_embed.map vecSq) l)

/-- Dot product of two embedding rows. -/
def dot {k : ℕ} (u v : Vec k) : ℚ := ∑ l, u l * v l

/-- The naive quadratic pairwise-interaction computation of the spec:
the sum over pairs `i < j` of the dot product of rows `v_i` and `v_j`. -/
def pairwiseInteraction {k : ℕ} : List (Vec k) → ℚ
  | [] => 0
  | v :: vs => (vs.map (dot v)).sum + pairwiseInteraction vs

/-- The second-order term of `FM.forward`: gather the interaction embeddings
of the sample's feature indices, then apply the interaction block
(`self.factorization_machine(self.feature_embedding(x))`). -/
def second_order {k : ℕ} (emb : ℕ → Vec k) (x : List ℕ) : ℚ :=
  factorization_machine (x.map emb)

/-- Number of active (non-padding) features of a sample; index 0 is the
reserved padding index. -/
def activeCount (x : List ℕ) : ℕ := (x.filter (fun i => i ≠ 0)).length

lemma colSum_nil {k : ℕ} (l : Fin k) : colSum ([] : List (Vec k)) l = 0 := rfl

lemma colSum_cons {k : ℕ} (v : Vec k) (vs : List (Vec k)) (l : Fin k) :
    colSum (v :: vs) l = v l + colSum vs l := by
  simp [colSum]

lemma sum_mul_colSum {k : ℕ} (v : Vec k) (vs : List (Vec k)) :
    (∑ l, v l * colSum vs l) = (vs.map (dot v)).sum := by
  induction vs with
  | nil => simp [colSum_nil]
  | cons w ws ih =>
    have h : ∀ l, v l * colSum (w :: ws) l = v l * w l + v l * colSum ws l := by
      intro l
      rw [colSum_cons]
      ring
    calc (∑ l, v l * colSum (w :: ws) l)
        = (∑ l, (v l * w l + v l * colSum ws l)) := by
          exact Finset.sum_congr rfl (fun l _ => h l)
      _ = (∑ l, v l * w l) + (∑ l, v l * colSum ws l) := Finset.sum_add_distrib
      _ = dot v w + (ws.map (dot v)).sum := by rw [ih]; rfl
      _ = ((w :: ws).map (dot v)).sum := by simp

lemma factorization_machine_nil {k : ℕ} :
    factorization_machine ([] : List (Vec k)) = 0 := by
  simp [factorization_machine, colSum_nil]

lemma factorization_machine_cons {k : ℕ} (v : Vec k) (vs : List (Vec k)) :
    factorization_machine (v :: vs)
      = (vs.map (dot v)).sum + factorization_machine vs := by
  have hexp : ∀ l : Fin k,
      (colSum (v :: vs) l) ^ 2 - colSum ((v :: vs).map vecSq) l
        = 2 * (v l * colSum vs l)
          + ((colSum vs l) ^ 2 - colSum (vs.map vecSq) l) := by
    intro l
    have h1 : colSum (v :: vs) l = v l + colSum vs l := colSum_cons v vs l
    have h2 : colSum ((v :: vs).map vecSq) l
        = vecSq v l + colSum (vs.map vecSq) l := by
      rw [List.map_cons]
      exact colSum_cons (vecSq v) (vs.map vecSq) l
    rw [h1, h2]
    simp only [vecSq]
    ring
  calc factorization_machine (v :: vs)
      = ((1 : ℚ) / 2) * ∑ l,
          (2 * (v l * colSum vs l)
            + ((colSum vs l) ^ 2 - colSum (vs.map vecSq) l)) := by
        unfold factorization_machine
        exact congrArg _ (Finset.sum_congr rfl (fun l _ => hexp l))
    _ = ((1 : ℚ) / 2) * ((∑ l, 2 * (v l * colSum vs l))
          + ∑ l, ((colSum vs l) ^ 2 - colSum (vs.map vecSq) l)) := by
        rw [Finset.sum_add_distrib]
    _ = (∑ l, v l * colSum vs l) + factorization_machine vs := by
        rw [mul_add]
        unfold factorization_machine
        congr 1
        rw [Finset.mul_sum]
        exact Finset.sum_congr rfl (fun l _ => by ring)
    _ = (vs.map (dot v)).sum + factorization_machine vs := by
        rw [sum_mul_colSum]

lemma factorization_machine_eq_pairwise {k : ℕ} (xs : List (Vec k)) :
    factorization_machine xs = pairwiseInteraction xs := by
  induction xs with
  | nil => simp [factorization_machine_nil, pairwiseInteraction]
  | cons v vs ih =>
    rw [factorization_machine_cons, ih]
    rfl

/-- C1: for every sample (a list of feature indices) and every embedding
table, the FM interaction block's linear-time computation (square the
column-sum of the gathered embeddings, subtract the column-sum of the
elementwise squares, halve, and sum over the embedding dimension) equals the
naive quadratic computation: the sum over pairs `i < j` of the dot product
of the embeddings of the sample's `i`-th and `j`-th features. -/
theorem fm_linear_eq_naive_pairwise {k : ℕ} (emb : ℕ → Vec k) (x : List ℕ) :
    second_order emb x = pairwiseInteraction (x.map emb) :=
  factorization_machine_eq_pairwise (x.map emb)

/-- The FM interaction block applied to a whole batch: one scalar per
sample, reductions along the feature axis performed independently per
batch element. -/
def fmBatch {k : ℕ} (emb : ℕ → Vec k) (batch : List (List ℕ)) : List ℚ :=
  batch.map (second_order emb)

/-- An embedding table whose every row (including the reserved padding
row 0) is the constant-one vector of dimension 1: a stand-in for a trained
or randomly initialised table, whose padding row is nonzero because the
source never freezes or masks it. -/
def constOneTable : ℕ → Vec 1 := fun _ _ => 1

lemma factorization_machine_singleton {k : ℕ} (v : Vec k) :
    factorization_machine [v] = 0 := by
  simp [factorization_machine, colSum, vecSq]

/-- C2 counterexample: in the batch `[[1, 0]]` every sample has exactly one
active (non-padding) feature, yet the FM interaction block returns 1, not 0,
for its sample: the padding index 0 is gathered like any other row and its
(nonzero, trainable) embedding enters the reduction. -/
theorem fm_one_active_feature_counterexample :
    (∀ s ∈ [[1, 0]], activeCount s = 1)
    ∧ (∀ s ∈ [[1, 0]], second_order constOneTable s = 1)
    ∧ fmBatch constOneTable [[1, 0]] ≠ [0] := by
  refine ⟨?_, ?_, ?_⟩
  · intro s hs
    simp only [List.mem_singleton] at hs
    subst hs
    rfl
  · intro s hs
    simp only [List.mem_singleton] at hs
    subst hs
    norm_num [second_order, factorization_machine, colSum, vecSq,
      constOneTable, Fin.sum_univ_one]
  · norm_num [fmBatch, second_order, factorization_machine, colSum, vecSq,
      constOneTable, Fin.sum_univ_one]

/-- C2 amended: for every batch in which every sample consists of exactly
one feature index (a single slot, so no padding rows are gathered), the FM
interaction block returns exactly 0 for every sample of the batch:
`sq_sum` and `sum_sq` agree elementwise when only one row is summed. -/
theorem fm_single_feature_sample_zero {k : ℕ} (emb : ℕ → Vec k)
    (batch : List (List ℕ)) (hlen : ∀ s ∈ batch, s.length = 1) :
    ∀ s ∈ batch, second_order emb s = 0 := by
  intro s hs
  match s, hlen s hs with
  | [i], _ => exact factorization_machine_singleton (emb i)

/-- C2 witness: the amended theorem applied to the concrete batch `[[3]]`
over the constant-one table. -/
theorem fm_single_feature_sample_zero_witness :
    second_order constOneTable [3] = 0 :=
  fm_single_feature_sample_zero constOneTable [[3]]
    (by intro s hs; simp only [List.mem_singleton] at hs; subst hs; rfl)
    [3] (by simp)

/-- C3: the code violates the padding-contributes-zero property.  Over the
constant-one dimension-1 table (padding row 0 nonzero, as a trained table's
is), the sample `[1, 2, 3]` right-padded with index 0 to length 8 yields an
FM interaction of 28, while the unpadded 3-feature sample yields 3: the
padding rows are gathered and summed like real features, so the two outputs
differ, contradicting the spec sentence that padding must contribute 0. -/
theorem fm_padding_changes_output :
    second_order constOneTable [1, 2, 3, 0, 0, 0, 0, 0] = 28
    ∧ second_order constOneTable [1, 2, 3] = 3
    ∧ second_order constOneTable [1, 2, 3, 0, 0, 0, 0, 0]
        ≠ second_order constOneTable [1, 2, 3] := by
  refine ⟨?_, ?_, ?_⟩ <;>
    norm_num [second_order, factorization_machine, colSum, vecSq,
      constOneTable, Fin.sum_univ_one]

/-- The first-order linear block, per sample, translated from `FM.forward`
(part_002): `first_order = self.fc(x).sum(dim=1) + self.bias`, where `fc`
is a dimension-1 embedding (one scalar weight per feature) and `bias` the
learned global bias. -/
def first_order (fc : ℕ → Vec 1) (bias : ℚ) (x : List ℕ) : ℚ :=
  colSum (x.map fc) 0 + bias

/-- The hand-constructed weight table of the spec example: features 0, 1, 2
carry scalar weights 1/10, -(1/5), 1/20 (that is 0.1, -0.2, 0.05). -/
def exampleWeights : ℕ → Vec 1 := fun i _ => ([1/10, -(1/5), 1/20] : List ℚ).getD i 0

/-- C4: the linear block's output is exactly the sum of the looked-up
per-feature scalar weights plus the global bias; it is additive across
features (no interaction between them); and on the spec's example of three
features with weights 0.1, -0.2, 0.05 and bias 0.01 it yields exactly
-0.04 = -(1/25) over exact rational arithmetic. -/
theorem linear_block_sum_plus_bias :
    (∀ (fc : ℕ → Vec 1) (bias : ℚ) (x : List ℕ),
      first_order fc bias x = (x.map (fun i => fc i 0)).sum + bias)
    ∧ (∀ (fc : ℕ → Vec 1) (bias : ℚ) (x y : List ℕ),
      first_order fc bias (x ++ y) + bias
        = first_order fc bias x + first_order fc bias y)
    ∧ first_order exampleWeights (1 / 100) [0, 1, 2] = -(1 / 25) := by
  refine ⟨?_, ?_, ?_⟩
  · intro fc bias x
    simp [first_order, colSum, List.map_map, Function.comp_def]
  · intro fc bias x y
    simp only [first_order, colSum, List.map_append, List.sum_append]
    ring
  · norm_num [first_order, colSum, exampleWeights, List.getD]

/-- Modelled from the spec: the embedding row-gather itself is framework
code (`torch.nn.Embedding`), not part of the repository sources; per the
spec, the gather of feature index `i` from a table of `n_features` rows
returns the row exactly when `i < n_features` and is an error condition
otherwise, with no wrapping or clamping. -/
def Embedding.lookup {k : ℕ} (table : List (Vec k)) (i : ℕ) : Option (Vec k) :=
  table[i]?

lemma lookup_of_lt {k : ℕ} (table : List (Vec k)) (i : ℕ)
    (h : i < table.length) (d : Vec k) :
    Embedding.lookup table i = some (table.getD i d) := by
  have h1 : table[i]? = some table[i] := List.getElem?_eq_getElem h
  simp [Embedding.lookup, h1, List.getD_eq_getElem?_getD]

/-- The vanilla matrix-factorization forward pass, per sample, translated
from `MF.forward` (mf.ipynb): slice the user row (`x[:, 0]`) and the item
row (`x[:, 1]`) out of the single shared embedding table, multiply
elementwise, and sum over the embedding dimension; no sigmoid is applied. -/
def MF.forwardSample {k : ℕ} (table : List (Vec k)) (p : ℕ × ℕ) : Option ℚ := do
  let user_embed ← Embedding.lookup table p.1
  let item_embed ← Embedding.lookup table p.2
  pure (∑ l, user_embed l * item_embed l)

/-- The vanilla matrix-factorization forward pass over a batch of
(user id, item id) pairs. -/
def MF.forward {k : ℕ} (table : List (Vec k)) (batch : List (ℕ × ℕ)) :
    Option (List ℚ) :=
  batch.mapM (MF.forwardSample table)

lemma forwardSample_eq_dot {k : ℕ} (table : List (Vec k)) (p : ℕ × ℕ)
    (h1 : p.1 < table.length) (h2 : p.2 < table.length) :
    MF.forwardSample table p
      = some (dot (table.getD p.1 (zeroVec k)) (table.getD p.2 (zeroVec k))) := by
  rw [MF.forwardSample, lookup_of_lt table p.1 h1 (zeroVec k),
    lookup_of_lt table p.2 h2 (zeroVec k)]
  rfl

/-- C5: for every batch of (user id, item id) pairs whose indices are in
range for the single shared embedding table, the vanilla MF forward pass
returns, per sample, exactly the dot product of the user's row and the
item's row of that shared table, as a raw score (the result of the dot
product itself, with no sigmoid applied). -/
theorem mf_forward_dot_product {k : ℕ} (table : List (Vec k))
    (batch : List (ℕ × ℕ))
    (h : ∀ p ∈ batch, p.1 < table.length ∧ p.2 < table.length) :
    MF.forward table batch
      = some (batch.map (fun p =>
          dot (table.getD p.1 (zeroVec k)) (table.getD p.2 (zeroVec k)))) := by
  induction batch with
  | nil => rfl
  | cons p ps ih =>
    have hp := h p (List.mem_cons_self p ps)
    have hps : ∀ q ∈ ps, q.1 < table.length ∧ q.2 < table.length :=
      fun q hq => h q (List.mem_cons_of_mem p hq)
    simp only [MF.forward] at ih ⊢
    rw [List.mapM_cons, forwardSample_eq_dot table p hp.1 hp.2, ih hps]
    rfl

/-- A concrete two-row shared table of embedding dimension 1: row 0 is the
constant 2, row 1 the constant 3. -/
def mfTable : List (Vec 1) := [fun _ => 2, fun _ => 3]

/-- C5 witness: the MF theorem applied to the two-row table `mfTable` and
the one-pair batch `[(0, 1)]`; the raw score is 2 * 3 = 6. -/
theorem mf_forward_dot_product_witness :
    MF.forward mfTable [(0, 1)] = some [6] := by
  have h := mf_forward_dot_product mfTable [(0, 1)]
    (by intro p hp; simp only [List.mem_singleton] at hp; subst hp
        exact ⟨by norm_num [mfTable], by norm_num [mfTable]⟩)
  rw [h]
  norm_num [mfTable, dot, zeroVec, List.getD, Fin.sum_univ_one]

/-- C8: the embedding row-gather succeeds (returns a row) exactly when the
feature index is below the table's row count, and for every index at or
beyond the row count it is an error (`none`), never a silently wrapped or
clamped row. -/
theorem embedding_lookup_in_range_iff {k : ℕ} (table : List (Vec k)) (i : ℕ) :
    ((Embedding.lookup table i).isSome ↔ i < table.length)
    ∧ (table.length ≤ i → Embedding.lookup table i = none) := by
  constructor
  · constructor
    · intro hs
      by_contra hc
      rw [show Embedding.lookup table i = table[i]? from rfl,
        List.getElem?_eq_none (Nat.le_of_not_lt hc)] at hs
      simp at hs
    · intro h
      rw [show Embedding.lookup table i = table[i]? from rfl,
        List.getElem?_eq_getElem h]
      rfl
  · intro h
    simp [Embedding.lookup, List.getElem?_eq_none h]

/-- C8 witness: on the concrete two-row table, the theorem gives a
successful gather at index 0 and an error at out-of-range index 5. -/
theorem embedding_lookup_in_range_iff_witness :
    (Embedding.lookup mfTable 0).isSome ∧ Embedding.lookup mfTable 5 = none := by
  constructor
  · exact (embedding_lookup_in_range_iff mfTable 0).1.mpr (by norm_num [mfTable])
  · exact (embedding_lookup_in_range_iff mfTable 5).2 (by norm_num [mfTable])

/-- The NCF model's parameter layout, translated from `NCF.__init__`
(ncf.ipynb): two separate embedding tables — `self.gmf_embedding` of
dimension `kg` for the generalized-matrix-factorization path and
`self.mlp_embedding` of dimension `km` for the MLP path — plus the MLP
stack and the final fully connected layer, kept abstract here because the
claim concerns only the tables. -/
structure NCF (kg km : ℕ) where
  gmf_embedding : ℕ → Vec kg
  mlp_embedding : ℕ → Vec km
  mlp : List ℚ → List ℚ
  fc : List ℚ → ℚ

/-- The GMF path of `NCF.forward`: elementwise product of the GMF
embeddings of the item and the user. -/
def NCF.gmfOut {kg km : ℕ} (m : NCF kg km) (item user : ℕ) : Vec kg :=
  fun l => m.gmf_embedding item l * m.gmf_embedding user l

/-- The MLP path's gathered input of `NCF.forward`: the pair of MLP
embeddings of the item and the user (concatenated before entering the
stack). -/
def NCF.mlpEmbeds {kg km : ℕ} (m : NCF kg km) (item user : ℕ) :
    Vec km × Vec km :=
  (m.mlp_embedding item, m.mlp_embedding user)

/-- Mutating the GMF embedding table of an NCF model (as a training step
that back-propagates only through the GMF path would). -/
def NCF.setGmfTable {kg km : ℕ} (m : NCF kg km) (t : ℕ → Vec kg) :
    NCF kg km :=
  { m with gmf_embedding := t }

/-- Mutating the MLP embedding table of an NCF model. -/
def NCF.setMlpTable {kg km : ℕ} (m : NCF kg km) (t : ℕ → Vec km) :
    NCF kg km :=
  { m with mlp_embedding := t }

/-- C6: the GMF path and the MLP path of NCF use independent embedding
tables: for every model state, mutating the GMF table leaves every weight
of the MLP table unchanged (and hence the MLP path's gathered embeddings),
and mutating the MLP table leaves every weight of the GMF table unchanged
(and hence the GMF path's output). -/
theorem ncf_embedding_tables_independent {kg km : ℕ} (m : NCF kg km)
    (tg : ℕ → Vec kg) (tm : ℕ → Vec km) (item user : ℕ) :
    ((m.setGmfTable tg).mlp_embedding = m.mlp_embedding)
    ∧ ((m.setMlpTable tm).gmf_embedding = m.gmf_embedding)
    ∧ ((m.setGmfTable tg).mlpEmbeds item user = m.mlpEmbeds item user)
    ∧ ((m.setMlpTable tm).gmfOut item user = m.gmfOut item user) :=
  ⟨rfl, rfl, rfl, rfl⟩

/-- The Two-Tower model's parameter layout, translated from
`TwoTower.__init__` (mf.ipynb): an item embedding table and a user
embedding table, and the field split `n_item_fields` / `n_user_fields` of
the input columns. -/
structure TwoTower (k : ℕ) where
  n_item_fields : ℕ
  n_user_fields : ℕ
  item_embedding : ℕ → Vec k
  user_embedding : ℕ → Vec k

/-- The item tower's gather of `TwoTower.forward`:
`self.item_embedding(x[:, :self.n_item_fields])` — the item table applied
to the first `n_item_fields` columns of the sample. -/
def TwoTower.itemGather {k : ℕ} (m : TwoTower k) (x : List ℕ) :
    List (Vec k) :=
  (x.take m.n_item_fields).map m.item_embedding

/-- The user tower's gather of `TwoTower.forward`:
`self.user_embedding(x[:, self.n_item_fields:])` — the user table applied
to the remaining columns of the sample. -/
def TwoTower.userGather {k : ℕ} (m : TwoTower k) (x : List ℕ) :
    List (Vec k) :=
  (x.drop m.n_item_fields).map m.user_embedding

/-- Mutating the item embedding table of a Two-Tower model. -/
def TwoTower.setItemTable {k : ℕ} (m : TwoTower k) (t : ℕ → Vec k) :
    TwoTower k :=
  { m with item_embedding := t }

/-- Mutating the user embedding table of a Two-Tower model. -/
def TwoTower.setUserTable {k : ℕ} (m : TwoTower k) (t : ℕ → Vec k) :
    TwoTower k :=
  { m with user_embedding := t }

/-- C7: the item tower never gathers from the user embedding table and the
user tower never gathers from the item table: two runs that agree on the
first `n_item_fields` input columns gather identical item vectors even if
the user table and the user columns both change, and symmetrically two runs
that agree on the user columns gather identical user vectors even if the
item table and the item columns both change. -/
theorem two_tower_no_cross_gather {k : ℕ} (m : TwoTower k)
    (tu ti : ℕ → Vec k) (x₁ x₂ y₁ y₂ : List ℕ)
    (hitem : x₁.take m.n_item_fields = x₂.take m.n_item_fields)
    (huser : y₁.drop m.n_item_fields = y₂.drop m.n_item_fields) :
    (m.setUserTable tu).itemGather x₁ = m.itemGather x₂
    ∧ (m.setItemTable ti).userGather y₁ = m.userGather y₂ := by
  constructor
  · show (x₁.take m.n_item_fields).map m.item_embedding
      = (x₂.take m.n_item_fields).map m.item_embedding
    rw [hitem]
  · show (y₁.drop m.n_item_fields).map m.user_embedding
      = (y₂.drop m.n_item_fields).map m.user_embedding
    rw [huser]

/-- A concrete Two-Tower model with 2 item fields and 1 user field; the
item table embeds index `i` to the constant `i`, the user table to the
constant `i + 10`. -/
def ttExample : TwoTower 1 :=
  { n_item_fields := 2
    n_user_fields := 1
    item_embedding := fun i _ => i
    user_embedding := fun i _ => i + 10 }

/-- C7 witness: the theorem applied to `ttExample` with the user table
replaced by a constant-99 table and the user column changed from 6 to 7
(item gathers agree), and with the item table replaced and the item columns
changed from [8, 1] to [9, 0] (user gathers agree). -/
theorem two_tower_no_cross_gather_witness :
    (ttExample.setUserTable (fun _ _ => 99)).itemGather [4, 5, 6]
      = ttExample.itemGather [4, 5, 7]
    ∧ (ttExample.setItemTable (fun _ _ => 99)).userGather [8, 1, 2]
      = ttExample.userGather [9, 0, 2] :=
  two_tower_no_cross_gather ttExample (fun _ _ => 99) (fun _ _ => 99)
    [4, 5, 6] [4, 5, 7] [8, 1, 2] [9, 0, 2] rfl rfl

/-- The state a successfully constructed vanilla MF model would hold: the
single shared embedding table over `n_users + n_items` rows. -/
structure MFModel (k : ℕ) where
  embedding : ℕ → Vec k

/-- The first statement of `MF.__init__` (mf.ipynb) is `super.__init__()`:
it names the builtin type `super` itself (not a `super()` instance), so it
invokes the unbound descriptor `type.__init__` with no object, which Python
rejects with a TypeError.  Modelled as an unconditionally failing step, per
Python semantics. -/
def superTypeInit : Except String Unit :=
  Except.error ("TypeError: descriptor __init__ of super object needs an argument")

/-- The constructor `MF.__init__` (mf.ipynb), translated statement by
statement: the bad `super.__init__()` call runs first; only if it returned
would the shared embedding table be installed. -/
def MF.init (n_users n_items embed_dim : ℕ)
    (weights : ℕ → Vec embed_dim) : Except String (MFModel embed_dim) := do
  superTypeInit
  pure { embedding := fun i => if i < n_users + n_items then weights i else zeroVec embed_dim }

/-- C9: for every choice of constructor arguments, constructing the vanilla
MF model raises a TypeError and never returns a model value, because its
initializer invokes `__init__` on the builtin `super` type itself instead
of calling `super().__init__()`. -/
theorem mf_init_always_raises (n_users n_items embed_dim : ℕ)
    (weights : ℕ → Vec embed_dim) :
    MF.init n_users n_items embed_dim weights
      = Except.error ("TypeError: descriptor __init__ of super object needs an argument") :=
  rfl

/-- Attributes exposed by `torch.nn` that the notebooks reference; the
module base class is `Module`, capitalised — `torch.nn` has no attribute
named `module`. -/
def torchNnAttrs : List String :=
  ["Module", "Embedding", "Linear", "BatchNorm1d", "ReLU", "Dropout",
   "Sequential", "Parameter"]

/-- Resolution of an attribute of `torch.nn`, per Python semantics: a hit
returns the attribute, a miss raises AttributeError. -/
def resolveNnAttr (a : String) : Except String Unit :=
  if a ∈ torchNnAttrs then Except.ok ()
  else Except.error ("AttributeError: module torch.nn has no attribute " ++ a)

/-- The local names in scope inside `DeepFM.__init__` (part_000) when the
final-layer statement `mlp_layers.append(nn.Linear(mlp_input_dim, 1))`
runs: the loop kept `input_dim` updated and the instance attribute is
`self.mlp_input_dim`; the bare name `mlp_input_dim` was never bound. -/
def deepFMInitLocals : List String :=
  ["self", "n_fields", "n_features", "embed_dim", "mlp_dims", "dropout",
   "input_dim", "mlp_layers", "dim"]

/-- Resolution of a bare name against a local scope, per Python semantics:
a miss raises NameError. -/
def lookupLocal (scope : List String) (a : String) : Except String Unit :=
  if a ∈ scope then Except.ok ()
  else Except.error ("NameError: name " ++ a ++ " is not defined")

/-- The state a successfully constructed DeepFM model would hold. -/
structure DeepFMModel (k : ℕ) where
  embedding : ℕ → Vec k
  fc : ℕ → Vec 1
  bias : ℚ

/-- Construction of the DeepFM model (part_000), translated stage by
stage: evaluating the class statement `class DeepFM(nn.module)` resolves
the attribute `nn.module` (which does not exist); were that repaired, the
body of `__init__` would still have to resolve the bare name
`mlp_input_dim` at its final MLP layer, which is not in scope. -/
def DeepFM.init (n_fields n_features embed_dim : ℕ) (mlp_dims : List ℕ)
    (dropout : ℚ) (weights : ℕ → Vec embed_dim) (fcWeights : ℕ → Vec 1) :
    Except String (DeepFMModel embed_dim) := do
  resolveNnAttr ("module")
  lookupLocal deepFMInitLocals ("mlp_input_dim")
  pure { embedding := weights, fc := fcWeights, bias := 0 }

/-- C10: for every choice of constructor arguments, constructing the DeepFM
model fails and never returns a model value: the class statement resolves
the non-existent attribute `nn.module` and raises AttributeError, and even
past that, the bare name `mlp_input_dim` referenced by the final MLP layer
is not defined in the initializer's scope. -/
theorem deepfm_construction_fails :
    (∀ (n_fields n_features embed_dim : ℕ) (mlp_dims : List ℕ)
       (dropout : ℚ) (w : ℕ → Vec embed_dim) (fcw : ℕ → Vec 1),
      DeepFM.init n_fields n_features embed_dim mlp_dims dropout w fcw
        = Except.error ("AttributeError: module torch.nn has no attribute module"))
    ∧ lookupLocal deepFMInitLocals ("mlp_input_dim")
        = Except.error ("NameError: name mlp_input_dim is not defined") := by
  constructor
  · intro n_fields n_features embed_dim mlp_dims dropout w fcw
    rfl
  · rfl
